import Mathlib

/-!
Verification of the TOS management PWA's ranked search engine and offline
mutation log.  The definitions below are a shallow embedding of the
TypeScript client (`TOSDatabase`, the IndexedDB layer of the frontend) and of
the Node backend's in-memory model (`MockTOSModel`).  JavaScript strings are
modelled as lists of characters and the string operations used by the code
(`toLowerCase`, `trim`, `startsWith`, `includes`, `localeCompare`) are mapped
charwise onto those lists.  `Array.prototype.sort`, which is a stable sort
with a user comparator, is modelled by Mathlib's stable `List.insertionSort`
on the relation "comparator result is nonpositive".
-/

namespace TOS

/-- JavaScript strings, modelled as lists of characters. -/
abbrev Str := List Char

/-- Model of `String.prototype.toLowerCase`, applied characterwise. -/
def toLowerCase (s : Str) : Str := s.map Char.toLower

/-- Model of `String.prototype.trim`: drop whitespace at both ends. -/
def trim (s : Str) : Str :=
  ((s.dropWhile Char.isWhitespace).reverse.dropWhile Char.isWhitespace).reverse

/-- Model of `s.startsWith(pre)`. -/
def startsWith (s pre : Str) : Bool := decide (pre <+: s)

/-- Model of `s.includes(sub)` (substring containment). -/
def includes (s sub : Str) : Bool := decide (sub <:+: s)

/-- Lexicographic comparison of two character lists, used to model
`String.prototype.localeCompare` (code-point collation). -/
def lexOrd : Str → Str → Ordering
  | [], [] => .eq
  | [], _ :: _ => .lt
  | _ :: _, [] => .gt
  | a :: s, b :: t => if a < b then .lt else if b < a then .gt else lexOrd s t

/-- Model of `a.localeCompare(b)` as a sign value. -/
def localeCompare (s t : Str) : Int :=
  match lexOrd s t with
  | .lt => -1
  | .eq => 0
  | .gt => 1

/-- The `TOSRecord` interface of `frontend/src/types/tos.ts`. -/
structure TOSRecord where
  ID : Int
  CONTRACTOR : Str
  DATE : Str
  SHIFT : Str
  STOCK_ID : Str
  STOCK_STATUS : Str
deriving DecidableEq, Repr

/-- The two mutable fields, i.e. the TypeScript union type
`'SHIFT' | 'STOCK_STATUS'` used by `TOSDatabase.updateRecord` and by the
`PendingUpdate` interface. -/
inductive MutableField where
  | SHIFT
  | STOCK_STATUS
deriving DecidableEq, Repr

/-- The field name as the string used in the TypeScript source. -/
def MutableField.name : MutableField → Str
  | .SHIFT => "SHIFT".toList
  | .STOCK_STATUS => "STOCK_STATUS".toList

/-- Reading `record[field]` for a mutable field. -/
def getField (r : TOSRecord) : MutableField → Str
  | .SHIFT => r.SHIFT
  | .STOCK_STATUS => r.STOCK_STATUS

/-- Writing `record[field] = newValue` for a mutable field. -/
def setField (r : TOSRecord) : MutableField → Str → TOSRecord
  | .SHIFT, v => { r with SHIFT := v }
  | .STOCK_STATUS, v => { r with STOCK_STATUS := v }

/-- The `PendingUpdate` interface of `frontend/src/types/tos.ts`. -/
structure PendingUpdate where
  id : Str
  recordId : Int
  field : MutableField
  oldValue : Str
  newValue : Str
  timestamp : Nat
  synced : Bool
deriving DecidableEq, Repr

/-! ### The client search (`TOSDatabase.searchRecords`) -/

/-- The loop of `TOSDatabase.calculateSimpleDistance`: `maxLength - i`
iterations remain; each step compares `str1[i]` with `str2[i]` (a read past a
string's end yields `undefined`, modelled by `Option`, which mismatches any
character), counts the mismatch, and returns `99` as soon as the running
count exceeds `2`. -/
def distanceLoop : Nat → Str → Str → Nat → Nat
  | 0, _, _, distance => distance
  | remaining + 1, s, t, distance =>
    let d := if s.head? = t.head? then distance else distance + 1
    if d > 2 then 99 else distanceLoop remaining s.tail t.tail d

/-- Model of `TOSDatabase.calculateSimpleDistance`: early exit with `99`
when the lengths differ by more than `2`, otherwise the bounded positional
mismatch count over `maxLength` aligned positions. -/
def calculateSimpleDistance (str1 str2 : Str) : Nat :=
  if ((str1.length : Int) - (str2.length : Int)).natAbs > 2 then 99
  else distanceLoop (max str1.length str2.length) str1 str2 0

/-- The priority computation inside `TOSDatabase.searchRecords` (the body of
the `allRecords.forEach` callback): the chain of `if`/`else if` tests
assigning levels 1-5, with `0` meaning no match. -/
def recordPriority (query : Str) (record : TOSRecord) : Nat :=
  let recordStockId := toLowerCase record.STOCK_ID
  let contractor := toLowerCase record.CONTRACTOR
  if recordStockId = query then 1
  else if startsWith recordStockId query then 2
  else if includes recordStockId query then 3
  else if includes contractor query then 4
  else if calculateSimpleDistance recordStockId query ≤ 2 ∧ query.length > 2 then 5
  else 0

/-- An entry of the `results` array in `TOSDatabase.searchRecords`. -/
structure SearchMatch where
  record : TOSRecord
  priority : Nat
deriving DecidableEq, Repr

/-- The sort comparator of `TOSDatabase.searchRecords`: priority difference,
then stock-id length difference, then `localeCompare` on the stock ids. -/
def cmpResults (a b : SearchMatch) : Int :=
  if a.priority ≠ b.priority then (a.priority : Int) - (b.priority : Int)
  else if a.record.STOCK_ID.length ≠ b.record.STOCK_ID.length then
    (a.record.STOCK_ID.length : Int) - (b.record.STOCK_ID.length : Int)
  else localeCompare a.record.STOCK_ID b.record.STOCK_ID

/-- The ordering realised by the stable JavaScript sort under `cmpResults`:
an element may stay before another precisely when the comparator is
nonpositive. -/
def resultsLe (a b : SearchMatch) : Prop := cmpResults a b ≤ 0

instance : DecidableRel resultsLe :=
  fun a b => inferInstanceAs (Decidable (cmpResults a b ≤ 0))

/-- Model of `TOSDatabase.searchRecords`: blank queries return the whole
collection; otherwise each record gets a priority (records with priority `0`
are dropped), and the matches are stably sorted by `cmpResults` and mapped
back to their records. -/
def searchRecords (allRecords : List TOSRecord) (stockId : Str) : List TOSRecord :=
  if trim stockId = [] then allRecords
  else
    let query := trim (toLowerCase stockId)
    let results := allRecords.filterMap fun record =>
      let priority := recordPriority query record
      if priority > 0 then some ⟨record, priority⟩ else none
    (List.insertionSort resultsLe results).map SearchMatch.record

/-! ### The backend in-memory model (`MockTOSModel` in
`backend/src/models/mockTosModel.js`) -/

/-- The search filters accepted by `MockTOSModel.searchRecords` (the
`filters` argument, all entries optional). -/
structure MockFilters where
  contractor : Option Str := none
  status : Option Str := none
  limit : Option Nat := none
  offset : Option Nat := none
deriving DecidableEq, Repr

/-- The relevance comparator inside `MockTOSModel.searchRecords`:
exact match first, then prefix match, then ascending stock-id length. -/
def mockCmp (searchTerm : Str) (a b : TOSRecord) : Int :=
  let aStockId := toLowerCase a.STOCK_ID
  let bStockId := toLowerCase b.STOCK_ID
  if aStockId = searchTerm ∧ bStockId ≠ searchTerm then -1
  else if bStockId = searchTerm ∧ aStockId ≠ searchTerm then 1
  else if startsWith aStockId searchTerm ∧ ¬ startsWith bStockId searchTerm then -1
  else if startsWith bStockId searchTerm ∧ ¬ startsWith aStockId searchTerm then 1
  else (aStockId.length : Int) - (bStockId.length : Int)

/-- The ordering realised by the stable JavaScript sort under
`mockCmp searchTerm`. -/
def mockLe (searchTerm : Str) (a b : TOSRecord) : Prop := mockCmp searchTerm a b ≤ 0

instance (searchTerm : Str) : DecidableRel (mockLe searchTerm) :=
  fun a b => inferInstanceAs (Decidable (mockCmp searchTerm a b ≤ 0))

/-- Model of `MockTOSModel.searchRecords`: filter on stock-id or contractor
substring, sort by the relevance comparator, apply the optional contractor
and status filters, then paginate (`limit` defaults to 50 because `0` is
falsy under `filters.limit || 50`, `offset` defaults to 0).  The result is
the paginated record list paired with the pre-pagination total. -/
def mockSearchRecords (data : List TOSRecord) (query : Str) (filters : MockFilters) :
    List TOSRecord × Nat :=
  let results : List TOSRecord := data
  let results : List TOSRecord :=
    if query ≠ [] ∧ trim query ≠ [] then
      let searchTerm := toLowerCase query
      let filtered := results.filter fun record =>
        includes (toLowerCase record.STOCK_ID) searchTerm ||
          includes (toLowerCase record.CONTRACTOR) searchTerm
      List.insertionSort (mockLe searchTerm) filtered
    else results
  let results : List TOSRecord :=
    match filters.contractor with
    | some c => results.filter fun record => record.CONTRACTOR == c
    | none => results
  let results : List TOSRecord :=
    match filters.status with
    | some st => results.filter fun record => record.STOCK_STATUS == st
    | none => results
  let limit :=
    match filters.limit with
    | some l => if l ≠ 0 then l else 50
    | none => 50
  let offset :=
    match filters.offset with
    | some o => o
    | none => 0
  ((results.drop offset).take limit, results.length)

/-- The error taxonomy of `MockTOSModel.updateRecord`: the two `throw new
Error(...)` sites. -/
inductive UpdateError where
  | recordNotFound (id : Int)
  | invalidField (field : Str)
deriving DecidableEq, Repr

/-- The `allowedFields` array of `MockTOSModel.updateRecord`. -/
def allowedFields : List Str := ["SHIFT".toList, "STOCK_STATUS".toList]

/-- Writing `this.data[recordIndex][field] = value` for a dynamic field
name; only reached with a field in `allowedFields`. -/
def setMockField (r : TOSRecord) (field value : Str) : TOSRecord :=
  if field = "SHIFT".toList then { r with SHIFT := value }
  else if field = "STOCK_STATUS".toList then { r with STOCK_STATUS := value }
  else r

/-- In-place update at a list index, modelling the array mutation in
`MockTOSModel.updateRecord`. -/
def setFieldAt : List TOSRecord → Nat → Str → Str → List TOSRecord
  | [], _, _, _ => []
  | r :: rs, 0, field, value => setMockField r field value :: rs
  | r :: rs, i + 1, field, value => r :: setFieldAt rs i field value

/-- Model of `MockTOSModel.updateRecord`: find the record index by id
(`findIndex`), failing with the not-found error when absent, then validate
the field name, failing with the invalid-field error when it is not one of
the two allowed fields, and only then mutate the record.  The updated data
array is returned as the new state. -/
def mockUpdateRecord (data : List TOSRecord) (id : Int) (field value : Str) :
    Except UpdateError (List TOSRecord) :=
  match data.findIdx? (fun r => r.ID == id) with
  | none => .error (.recordNotFound id)
  | some recordIndex =>
    if field ∈ allowedFields then .ok (setFieldAt data recordIndex field value)
    else .error (.invalidField field)

/-- One element of the `updates` array of `MockTOSModel.bulkUpdate`. -/
structure BulkItem where
  id : Int
  field : Str
  value : Str
deriving DecidableEq, Repr

/-- The `results` accumulator of `MockTOSModel.bulkUpdate`; an error entry
pairs the item's id with the error thrown for it. -/
structure BulkResults where
  successful : Nat
  failed : Nat
  errors : List (Int × UpdateError)
deriving DecidableEq, Repr

/-- Model of `MockTOSModel.bulkUpdate`: apply each update in order against
the evolving data, counting successes and failures and collecting the
per-item errors in input order; a failing item leaves the data untouched and
the loop continues. -/
def bulkUpdate (data : List TOSRecord) : List BulkItem → List TOSRecord × BulkResults
  | [] => (data, ⟨0, 0, []⟩)
  | u :: us =>
    match mockUpdateRecord data u.id u.field u.value with
    | .ok data1 =>
      let rest := bulkUpdate data1 us
      (rest.1, ⟨rest.2.successful + 1, rest.2.failed, rest.2.errors⟩)
    | .error e =>
      let rest := bulkUpdate data us
      (rest.1, ⟨rest.2.successful, rest.2.failed + 1, (u.id, e) :: rest.2.errors⟩)

/-- The outcome `MockTOSModel.updateRecord` has on a given data state for a
given bulk item: `none` when it succeeds, `some e` when it throws `e`. -/
def updateOutcome (data : List TOSRecord) (u : BulkItem) : Option UpdateError :=
  match mockUpdateRecord data u.id u.field u.value with
  | .ok _ => none
  | .error e => some e

/-! ### The client offline store (`TOSDatabase` update and pending queue) -/

/-- The IndexedDB state used by `TOSDatabase`: the `tosRecords` store (keyed
by `ID`) and the `pendingUpdates` store (keyed by `id`), each modelled as a
list in insertion order. -/
structure ClientState where
  records : List TOSRecord
  pending : List PendingUpdate
deriving DecidableEq, Repr

/-- The ways a `TOSDatabase.updateRecord` call can reject: the explicit
`Record not found` rejection, and the IndexedDB `ConstraintError` raised by
`pendingStore.add` when an entry with the same key already exists (which
aborts the transaction, rolling back the record write). -/
inductive ClientError where
  | recordNotFound
  | constraintError
deriving DecidableEq, Repr

/-- Keyed lookup in the `tosRecords` store (`tosStore.get(id)`). -/
def findRecord (records : List TOSRecord) (id : Int) : Option TOSRecord :=
  records.find? fun r => r.ID == id

/-- Keyed write in the `tosRecords` store (`tosStore.put(record)`): replace
the entry with the same key, or append when absent. -/
def putRecord (records : List TOSRecord) (r : TOSRecord) : List TOSRecord :=
  if records.any (fun x => x.ID == r.ID) then
    records.map fun x => if x.ID == r.ID then r else x
  else records ++ [r]

/-- The generated pending-update identifier, the template string
`id-field-timestamp` built in `TOSDatabase.updateRecord`. -/
def pendingId (id : Int) (field : MutableField) (now : Nat) : Str :=
  (toString id).toList ++ ['-'] ++ field.name ++ ['-'] ++ (toString now).toList

/-- Model of `TOSDatabase.updateRecord`.  `Date.now()` is passed in
explicitly as `now`.  The record is fetched by key (rejecting when absent),
the edited copy is written back with `put`, and the pending entry is added
with `add`, which fails when its generated key already exists; a failed
request aborts the IndexedDB transaction, so the error cases leave the state
unchanged. -/
def updateRecord (s : ClientState) (id : Int) (field : MutableField)
    (newValue : Str) (now : Nat) : Except ClientError ClientState :=
  match findRecord s.records id with
  | none => .error .recordNotFound
  | some record =>
    let oldValue := getField record field
    let record1 := setField record field newValue
    let pendingUpdate : PendingUpdate :=
      { id := pendingId id field now
        recordId := id
        field := field
        oldValue := oldValue
        newValue := newValue
        timestamp := now
        synced := false }
    if s.pending.any (fun e => e.id == pendingUpdate.id) then .error .constraintError
    else .ok { records := putRecord s.records record1
               pending := s.pending ++ [pendingUpdate] }

/-- The retrieval order of the `pendingUpdates` store: IndexedDB returns
records in ascending key order, and the store's key is the string `id`, so
entries come back sorted by code-unit comparison of their ids. -/
def pendingKeyLe (e1 e2 : PendingUpdate) : Prop := lexOrd e1.id e2.id ≠ .gt

instance : DecidableRel pendingKeyLe :=
  fun e1 e2 => inferInstanceAs (Decidable (lexOrd e1.id e2.id ≠ .gt))

/-- Model of `TOSDatabase.getPendingUpdates`: `getAll` on the
`pendingUpdates` store, which yields the stored entries in ascending key
order of the `id` string (not in insertion order). -/
def getPendingUpdates (s : ClientState) : List PendingUpdate :=
  List.insertionSort pendingKeyLe s.pending

/-- Model of `TOSDatabase.clearPendingUpdate`: `delete(id)` on the
`pendingUpdates` store, which removes the entry with that key if present and
succeeds either way. -/
def clearPendingUpdate (s : ClientState) (id : Str) : ClientState :=
  { s with pending := s.pending.filter fun e => e.id != id }

/-- One client edit action: the arguments of a `TOSDatabase.updateRecord`
call together with the `Date.now()` value observed during it. -/
structure EditCmd where
  id : Int
  field : MutableField
  value : Str
  now : Nat
deriving DecidableEq, Repr

/-- A sequence of `updateRecord` calls in which every call succeeds;
the whole run fails if any call rejects. -/
def processAllEdits (s : ClientState) : List EditCmd → Except ClientError ClientState
  | [] => .ok s
  | c :: cs =>
    match updateRecord s c.id c.field c.value c.now with
    | .ok s1 => processAllEdits s1 cs
    | .error e => .error e

/-! ### Auxiliary definitions for the statements -/

/-- The plain Hamming-style distance the spec describes: the number of
aligned positions, up to the longer string's length, holding differing
characters (positions beyond the shorter string always differ). -/
def hammingCount : Str → Str → Nat
  | [], t => t.length
  | _ :: as, [] => hammingCount as [] + 1
  | a :: as, b :: bs => hammingCount as bs + (if a = b then 0 else 1)

/-- The ranking order the search results are claimed to follow: ascending
priority tier, then ascending stock-id length, then nondescending
lexicographic stock id. -/
def rankedBefore (query : Str) (r1 r2 : TOSRecord) : Prop :=
  recordPriority query r1 < recordPriority query r2 ∨
    (recordPriority query r1 = recordPriority query r2 ∧
      (r1.STOCK_ID.length < r2.STOCK_ID.length ∨
        (r1.STOCK_ID.length = r2.STOCK_ID.length ∧
          lexOrd r1.STOCK_ID r2.STOCK_ID ≠ .gt)))

/-- Extract the state of a successful client call, falling back to a default
state on an error. -/
def okOrElse (d : ClientState) : Except ClientError ClientState → ClientState
  | .ok s => s
  | .error _ => d

/-! ### Concrete data used by the witnesses and counterexamples -/

/-- A sample record in the style of the seeded client data. -/
def recA : TOSRecord :=
  ⟨1, "ABC Mining Co".toList, "2025-01-15".toList, "Day Shift".toList,
    "BB.D.5348".toList, "Active".toList⟩

/-- A second sample record. -/
def recB : TOSRecord :=
  ⟨2, "XYZ Corp".toList, "2025-01-15".toList, "Night Shift".toList,
    "CC.A.5348.01".toList, "Full".toList⟩

/-- A third sample record. -/
def recC : TOSRecord :=
  ⟨3, "Mining Solutions Ltd".toList, "2025-01-16".toList, "Day Shift".toList,
    "AA.B.1234".toList, "Empty".toList⟩

/-- A record collection used by witnesses. -/
def demoRecords : List TOSRecord := [recA, recB, recC]

/-- A record that only the fuzzy tier can reach for the query `abcd`. -/
def fuzzyOnlyRecord : TOSRecord :=
  ⟨7, "xx".toList, "2025-01-18".toList, "Day Shift".toList, "abce".toList,
    "Active".toList⟩

/-- A record within distance 2 of the two-character query `zz` while no
other tier matches it. -/
def shortQueryRecordA : TOSRecord :=
  ⟨8, "mm".toList, "2025-01-18".toList, "Day Shift".toList, "ab".toList,
    "Active".toList⟩

/-- A record within distance 2 of the two-character query `vw` while no
other tier matches it. -/
def shortQueryRecordB : TOSRecord :=
  ⟨9, "mm".toList, "2025-01-18".toList, "Day Shift".toList, "xy".toList,
    "Active".toList⟩

/-- A client state over the sample records with an empty pending queue. -/
def demoState : ClientState := ⟨demoRecords, []⟩

/-- A sequence of three valid edits with distinct generated ids. -/
def demoEdits : List EditCmd :=
  [⟨1, .SHIFT, "Night Shift".toList, 100⟩,
   ⟨2, .STOCK_STATUS, "Empty".toList, 100⟩,
   ⟨1, .SHIFT, "Day Shift".toList, 101⟩]

/-- Two valid edits to the same field of the same record at the consecutive
timestamps 99 and 100: the generated id of the earlier edit sorts after the
generated id of the later one in code-unit key order. -/
def cexEdits : List EditCmd :=
  [⟨1, .SHIFT, "Night Shift".toList, 99⟩,
   ⟨1, .SHIFT, "Day Shift".toList, 100⟩]

/-- A sample pending entry. -/
def demoPending : PendingUpdate :=
  ⟨"1-SHIFT-100".toList, 1, .SHIFT, "Day Shift".toList, "Night Shift".toList, 100, false⟩

/-- A client state whose pending queue holds one entry. -/
def pendingDemoState : ClientState := ⟨demoRecords, [demoPending]⟩

/-! ## Properties of the lexicographic comparison -/

theorem lexOrd_eq_iff (s : Str) : ∀ t, lexOrd s t = .eq ↔ s = t := by
  induction s with
  | nil => intro t; cases t <;> simp [lexOrd]
  | cons a s ih =>
    intro t
    cases t with
    | nil => simp [lexOrd]
    | cons b t =>
      simp only [lexOrd]
      split_ifs with h1 h2
      · constructor
        · intro h; exact absurd h (by decide)
        · intro h
          injection h with hab _
          exact absurd h1 (by simp [hab])
      · constructor
        · intro h; exact absurd h (by decide)
        · intro h
          injection h with hab _
          exact absurd h2 (by simp [hab])
      · have hab : a = b := le_antisymm (not_lt.mp h2) (not_lt.mp h1)
        subst hab
        simp [ih t]

theorem lexOrd_swap (s : Str) : ∀ t, lexOrd t s = (lexOrd s t).swap := by
  induction s with
  | nil => intro t; cases t <;> simp [lexOrd, Ordering.swap]
  | cons a s ih =>
    intro t
    cases t with
    | nil => simp [lexOrd, Ordering.swap]
    | cons b t =>
      simp only [lexOrd]
      rcases lt_trichotomy a b with h | h | h
      · simp [h, lt_asymm h, Ordering.swap]
      · subst h
        simp [lt_irrefl, ih t]
      · simp [h, lt_asymm h, Ordering.swap]

theorem lexOrd_lt_trans {s t u : Str} (h1 : lexOrd s t = .lt) (h2 : lexOrd t u = .lt) :
    lexOrd s u = .lt := by
  induction s generalizing t u with
  | nil =>
    cases t with
    | nil => exact absurd h1 (by simp [lexOrd])
    | cons b t =>
      cases u with
      | nil => exact absurd h2 (by simp [lexOrd])
      | cons c u => simp [lexOrd]
  | cons a s ih =>
    cases t with
    | nil => exact absurd h1 (by simp [lexOrd])
    | cons b t =>
      cases u with
      | nil => exact absurd h2 (by simp [lexOrd])
      | cons c u =>
        simp only [lexOrd] at h1 h2 ⊢
        split_ifs at h1 with hab hba
        · split_ifs at h2 with hbc hcb
          · rw [if_pos (lt_trans hab hbc)]
          · have hbc : b = c := le_antisymm (not_lt.mp hcb) (not_lt.mp hbc)
            subst hbc
            rw [if_pos hab]
        · split_ifs at h2 with hbc hcb
          · have hab2 : a = b := le_antisymm (not_lt.mp hba) (not_lt.mp hab)
            subst hab2
            rw [if_pos hbc]
          · have hbc2 : b = c := le_antisymm (not_lt.mp hcb) (not_lt.mp hbc)
            subst hbc2
            rw [if_neg hab, if_neg hba]
            exact ih h1 h2

theorem lexOrd_ne_gt_trans {s t u : Str} (h1 : lexOrd s t ≠ .gt) (h2 : lexOrd t u ≠ .gt) :
    lexOrd s u ≠ .gt := by
  rcases e1 : lexOrd s t with _ | _ | _
  · rcases e2 : lexOrd t u with _ | _ | _
    · rw [lexOrd_lt_trans e1 e2]; decide
    · rw [(lexOrd_eq_iff t u).mp e2] at e1
      rw [e1]; decide
    · exact absurd e2 h2
  · rw [(lexOrd_eq_iff s t).mp e1]
    exact h2
  · exact absurd e1 h1

/-! ## The client comparator is a total preorder -/

theorem cmpResults_le_iff (a b : SearchMatch) :
    cmpResults a b ≤ 0 ↔
      (a.priority < b.priority ∨
        (a.priority = b.priority ∧
          (a.record.STOCK_ID.length < b.record.STOCK_ID.length ∨
            (a.record.STOCK_ID.length = b.record.STOCK_ID.length ∧
              lexOrd a.record.STOCK_ID b.record.STOCK_ID ≠ .gt)))) := by
  unfold cmpResults localeCompare
  split_ifs with h1 h2
  · constructor
    · intro h
      left
      omega
    · rintro (h | ⟨h, _⟩)
      · omega
      · exact absurd h h1
  · push_neg at h1
    constructor
    · intro h
      right
      refine ⟨h1, ?_⟩
      left
      omega
    · rintro (h | ⟨_, h | ⟨h, _⟩⟩)
      · omega
      · omega
      · exact absurd h h2
  · push_neg at h1 h2
    rcases e : lexOrd a.record.STOCK_ID b.record.STOCK_ID with _ | _ | _
    · constructor
      · intro _
        exact Or.inr ⟨h1, Or.inr ⟨h2, by decide⟩⟩
      · intro _
        decide
    · constructor
      · intro _
        exact Or.inr ⟨h1, Or.inr ⟨h2, by decide⟩⟩
      · intro _
        decide
    · constructor
      · intro hle
        exact absurd hle (by decide)
      · rintro (h | ⟨_, hl | ⟨_, hx⟩⟩)
        · exact absurd h (by simp [h1])
        · exact absurd hl (by simp [h2])
        · exact absurd rfl hx

theorem resultsLe_total (a b : SearchMatch) : resultsLe a b ∨ resultsLe b a := by
  unfold resultsLe
  rw [cmpResults_le_iff, cmpResults_le_iff,
    lexOrd_swap a.record.STOCK_ID b.record.STOCK_ID]
  rcases e : lexOrd a.record.STOCK_ID b.record.STOCK_ID with _ | _ | _ <;>
    simp [e, Ordering.swap] <;> omega

theorem resultsLe_trans (a b c : SearchMatch) (hab : resultsLe a b) (hbc : resultsLe b c) :
    resultsLe a c := by
  unfold resultsLe at *
  rw [cmpResults_le_iff] at *
  rcases hab with h1 | ⟨h1, hl⟩
  · rcases hbc with g1 | ⟨g1, _⟩
    · left; omega
    · left; omega
  · rcases hbc with g1 | ⟨g1, gl⟩
    · left; omega
    · right
      refine ⟨h1.trans g1, ?_⟩
      rcases hl with h2 | ⟨h2, hx⟩
      · rcases gl with g2 | ⟨g2, _⟩
        · left; omega
        · left; omega
      · rcases gl with g2 | ⟨g2, gx⟩
        · left; omega
        · right
          exact ⟨h2.trans g2, lexOrd_ne_gt_trans hx gx⟩

/-! ## The ranked search output -/

theorem mem_searchResults {q : Str} {records : List TOSRecord} {m : SearchMatch}
    (hm : m ∈ records.filterMap fun record =>
      let priority := recordPriority q record
      if priority > 0 then some ⟨record, priority⟩ else none) :
    m.record ∈ records ∧ m.priority = recordPriority q m.record ∧ 0 < m.priority := by
  rcases List.mem_filterMap.mp hm with ⟨r, hr, he⟩
  dsimp only at he
  by_cases hp : recordPriority q r > 0
  · rw [if_pos hp] at he
    obtain rfl : (⟨r, recordPriority q r⟩ : SearchMatch) = m := Option.some.inj he
    exact ⟨hr, rfl, hp⟩
  · rw [if_neg hp] at he
    exact absurd he (by simp)

theorem searchResults_pairwise (q : Str) (records : List TOSRecord) :
    ((List.insertionSort resultsLe (records.filterMap fun record =>
        let priority := recordPriority q record
        if priority > 0 then some ⟨record, priority⟩ else none)).map
      SearchMatch.record).Pairwise
      (fun r1 r2 => rankedBefore q r1 r2 ∧ recordPriority q r1 ≤ recordPriority q r2) := by
  have hsorted := @List.sorted_insertionSort _ resultsLe _ ⟨resultsLe_total⟩
    ⟨resultsLe_trans⟩ (records.filterMap fun record =>
      let priority := recordPriority q record
      if priority > 0 then some ⟨record, priority⟩ else none)
  rw [List.pairwise_map]
  refine List.Pairwise.imp_of_mem ?_ hsorted
  intro m1 m2 h1 h2 hle
  obtain ⟨_, e1, _⟩ := mem_searchResults ((List.mem_insertionSort resultsLe).mp h1)
  obtain ⟨_, e2, _⟩ := mem_searchResults ((List.mem_insertionSort resultsLe).mp h2)
  have hle' := (cmpResults_le_iff m1 m2).mp hle
  constructor
  · unfold rankedBefore
    rw [← e1, ← e2]
    exact hle'
  · rw [← e1, ← e2]
    rcases hle' with hlt | ⟨heq, _⟩
    · exact le_of_lt hlt
    · exact le_of_eq heq

theorem mem_searchResults_map (q : Str) (records : List TOSRecord) (r : TOSRecord) :
    (r ∈ (List.insertionSort resultsLe (records.filterMap fun record =>
        let priority := recordPriority q record
        if priority > 0 then some ⟨record, priority⟩ else none)).map SearchMatch.record) ↔
      r ∈ records ∧ 0 < recordPriority q r := by
  rw [List.mem_map]
  constructor
  · rintro ⟨m, hm, rfl⟩
    obtain ⟨h1, h2, h3⟩ := mem_searchResults ((List.mem_insertionSort resultsLe).mp hm)
    exact ⟨h1, h2 ▸ h3⟩
  · rintro ⟨hr, hp⟩
    refine ⟨⟨r, recordPriority q r⟩, (List.mem_insertionSort resultsLe).mpr ?_, rfl⟩
    refine List.mem_filterMap.mpr ⟨r, hr, ?_⟩
    dsimp only
    rw [if_pos hp]

theorem mem_searchRecords (records : List TOSRecord) (stockId : Str) (r : TOSRecord)
    (h : trim stockId ≠ []) :
    r ∈ searchRecords records stockId ↔
      r ∈ records ∧ 0 < recordPriority (trim (toLowerCase stockId)) r := by
  unfold searchRecords
  rw [if_neg h]
  exact mem_searchResults_map (trim (toLowerCase stockId)) records r

/-- Claim C2: for every non-blank query, the list returned by the local
search is sorted ascending by priority tier, then by stock-identifier
length, then by lexicographic stock identifier; in particular every returned
record's tier is at most the tier of every record ranked after it. -/
theorem searchRecords_sorted (allRecords : List TOSRecord) (stockId : Str)
    (h : trim stockId ≠ []) :
    (searchRecords allRecords stockId).Pairwise fun r1 r2 =>
      rankedBefore (trim (toLowerCase stockId)) r1 r2 ∧
        recordPriority (trim (toLowerCase stockId)) r1 ≤
          recordPriority (trim (toLowerCase stockId)) r2 := by
  unfold searchRecords
  rw [if_neg h]
  exact searchResults_pairwise (trim (toLowerCase stockId)) allRecords

/-- Witness for C2 at the query `5348` over the sample records. -/
theorem searchRecords_sorted_witness :
    trim "5348".toList ≠ [] ∧
      (searchRecords demoRecords "5348".toList).Pairwise (fun r1 r2 =>
        rankedBefore (trim (toLowerCase "5348".toList)) r1 r2 ∧
          recordPriority (trim (toLowerCase "5348".toList)) r1 ≤
            recordPriority (trim (toLowerCase "5348".toList)) r2) :=
  ⟨by decide, searchRecords_sorted demoRecords ("5348".toList) (by decide)⟩

/-- Claim C1 (amended): for every non-blank query and every record of the
collection, the local search assigns the record the lowest-numbered
applicable tier, evaluated in the fixed order (1) lower-cased stock id
equals the query, (2) stock id starts with the query, (3) stock id contains
the query, (4) contractor contains the query, (5) the bounded distance is at
most 2 *and the query is longer than two characters*; a record for which no
tier applies is excluded from the returned list. -/
theorem searchRecords_tiers (records : List TOSRecord) (stockId : Str) (r : TOSRecord)
    (h : trim stockId ≠ []) (hr : r ∈ records) :
    (recordPriority (trim (toLowerCase stockId)) r = 1 ↔
      toLowerCase r.STOCK_ID = trim (toLowerCase stockId)) ∧
    (recordPriority (trim (toLowerCase stockId)) r = 2 ↔
      ¬ toLowerCase r.STOCK_ID = trim (toLowerCase stockId) ∧
      startsWith (toLowerCase r.STOCK_ID) (trim (toLowerCase stockId)) = true) ∧
    (recordPriority (trim (toLowerCase stockId)) r = 3 ↔
      ¬ toLowerCase r.STOCK_ID = trim (toLowerCase stockId) ∧
      ¬ startsWith (toLowerCase r.STOCK_ID) (trim (toLowerCase stockId)) = true ∧
      includes (toLowerCase r.STOCK_ID) (trim (toLowerCase stockId)) = true) ∧
    (recordPriority (trim (toLowerCase stockId)) r = 4 ↔
      ¬ toLowerCase r.STOCK_ID = trim (toLowerCase stockId) ∧
      ¬ startsWith (toLowerCase r.STOCK_ID) (trim (toLowerCase stockId)) = true ∧
      ¬ includes (toLowerCase r.STOCK_ID) (trim (toLowerCase stockId)) = true ∧
      includes (toLowerCase r.CONTRACTOR) (trim (toLowerCase stockId)) = true) ∧
    (recordPriority (trim (toLowerCase stockId)) r = 5 ↔
      ¬ toLowerCase r.STOCK_ID = trim (toLowerCase stockId) ∧
      ¬ startsWith (toLowerCase r.STOCK_ID) (trim (toLowerCase stockId)) = true ∧
      ¬ includes (toLowerCase r.STOCK_ID) (trim (toLowerCase stockId)) = true ∧
      ¬ includes (toLowerCase r.CONTRACTOR) (trim (toLowerCase stockId)) = true ∧
      (calculateSimpleDistance (toLowerCase r.STOCK_ID) (trim (toLowerCase stockId)) ≤ 2 ∧
        (trim (toLowerCase stockId)).length > 2)) ∧
    (r ∈ searchRecords records stockId ↔
      (toLowerCase r.STOCK_ID = trim (toLowerCase stockId) ∨
        startsWith (toLowerCase r.STOCK_ID) (trim (toLowerCase stockId)) = true ∨
        includes (toLowerCase r.STOCK_ID) (trim (toLowerCase stockId)) = true ∨
        includes (toLowerCase r.CONTRACTOR) (trim (toLowerCase stockId)) = true ∨
        (calculateSimpleDistance (toLowerCase r.STOCK_ID) (trim (toLowerCase stockId)) ≤ 2 ∧
          (trim (toLowerCase stockId)).length > 2))) := by
  have hmem := mem_searchRecords records stockId r h
  simp only [hr, true_and] at hmem
  rw [hmem]
  unfold recordPriority
  dsimp only
  split_ifs with h1 h2 h3 h4 h5 <;>
    refine ⟨?_, ?_, ?_, ?_, ?_, ?_⟩ <;> simp_all

/-- Witness for C1 at the query `5348` and the first sample record. -/
theorem searchRecords_tiers_witness :
    trim "5348".toList ≠ [] ∧ recA ∈ demoRecords ∧
      (recordPriority (trim (toLowerCase "5348".toList)) recA = 3 ↔
        ¬ toLowerCase recA.STOCK_ID = trim (toLowerCase "5348".toList) ∧
        ¬ startsWith (toLowerCase recA.STOCK_ID) (trim (toLowerCase "5348".toList)) = true ∧
        includes (toLowerCase recA.STOCK_ID) (trim (toLowerCase "5348".toList)) = true) :=
  ⟨by decide, by decide,
    (searchRecords_tiers demoRecords ("5348".toList) recA (by decide) (by decide)).2.2.1⟩

/-- Counterexample to claim C1 as frozen: for the non-blank two-character
query `zz` and a record with stock id `ab`, the claim's fuzzy-tier
condition holds (distance at most 2) while no earlier tier applies, so the
claim would place the record in tier 5 and hence in the results, yet the
search excludes it (the code additionally requires the query to be longer
than two characters). -/
theorem searchRecords_tiers_cex :
    trim "zz".toList ≠ [] ∧
    calculateSimpleDistance (toLowerCase shortQueryRecordA.STOCK_ID)
      (trim (toLowerCase "zz".toList)) ≤ 2 ∧
    ¬ toLowerCase shortQueryRecordA.STOCK_ID = trim (toLowerCase "zz".toList) ∧
    startsWith (toLowerCase shortQueryRecordA.STOCK_ID) (trim (toLowerCase "zz".toList)) = false ∧
    includes (toLowerCase shortQueryRecordA.STOCK_ID) (trim (toLowerCase "zz".toList)) = false ∧
    includes (toLowerCase shortQueryRecordA.CONTRACTOR) (trim (toLowerCase "zz".toList)) = false ∧
    shortQueryRecordA ∉ searchRecords [shortQueryRecordA] ("zz".toList) := by
  decide

/-! ## The bounded distance of the fuzzy tier -/

theorem distanceLoop_eq (fuel : Nat) : ∀ (s t : Str) (d : Nat),
    fuel = max s.length t.length → d ≤ 2 →
    distanceLoop fuel s t d =
      if d + hammingCount s t ≤ 2 then d + hammingCount s t else 99 := by
  induction fuel with
  | zero =>
    intro s t d hf hd
    cases s with
    | nil =>
      cases t with
      | nil => simp [distanceLoop, hammingCount, hd]
      | cons b bs => simp [List.length_cons] at hf
    | cons a as =>
      exact absurd hf (by simp [List.length_cons]; omega)
  | succ fuel ih =>
    intro s t d hf hd
    cases s with
    | nil =>
      cases t with
      | nil => simp at hf
      | cons b bs =>
        have hf' : fuel = max ([] : Str).length bs.length := by
          simp at hf ⊢; omega
        have hstep : distanceLoop (fuel + 1) [] (b :: bs) d =
            if d + 1 > 2 then 99 else distanceLoop fuel [] bs (d + 1) := by
          simp [distanceLoop]
        rw [hstep]
        simp only [hammingCount, List.length_cons]
        by_cases hgt : d + 1 > 2
        · rw [if_pos hgt, if_neg (by omega)]
        · rw [if_neg hgt, ih [] bs (d + 1) hf' (by omega)]
          simp only [hammingCount]
          by_cases hle : d + 1 + bs.length ≤ 2
          · rw [if_pos hle, if_pos (by omega)]
            omega
          · rw [if_neg hle, if_neg (by omega)]
    | cons a as =>
      cases t with
      | nil =>
        have hf' : fuel = max as.length ([] : Str).length := by
          simp at hf ⊢; omega
        have hstep : distanceLoop (fuel + 1) (a :: as) [] d =
            if d + 1 > 2 then 99 else distanceLoop fuel as [] (d + 1) := by
          simp [distanceLoop]
        rw [hstep]
        simp only [hammingCount]
        by_cases hgt : d + 1 > 2
        · rw [if_pos hgt, if_neg (by omega)]
        · rw [if_neg hgt, ih as [] (d + 1) hf' (by omega)]
          by_cases hle : d + 1 + hammingCount as [] ≤ 2
          · rw [if_pos hle, if_pos (by omega)]
            omega
          · rw [if_neg hle, if_neg (by omega)]
      | cons b bs =>
        have hf' : fuel = max as.length bs.length := by
          simp [List.length_cons] at hf ⊢; omega
        by_cases hab : a = b
        · have hstep : distanceLoop (fuel + 1) (a :: as) (b :: bs) d =
              if d > 2 then 99 else distanceLoop fuel as bs d := by
            simp [distanceLoop, hab]
          rw [hstep, if_neg (by omega), ih as bs d hf' hd]
          simp only [hammingCount, if_pos hab, Nat.add_zero]
        · have hstep : distanceLoop (fuel + 1) (a :: as) (b :: bs) d =
              if d + 1 > 2 then 99 else distanceLoop fuel as bs (d + 1) := by
            simp [distanceLoop, hab]
          rw [hstep]
          simp only [hammingCount, if_neg hab]
          by_cases hgt : d + 1 > 2
          · rw [if_pos hgt, if_neg (by omega)]
          · rw [if_neg hgt, ih as bs (d + 1) hf' (by omega)]
            by_cases hle : d + 1 + hammingCount as bs ≤ 2
            · rw [if_pos hle, if_pos (by omega)]
              omega
            · rw [if_neg hle, if_neg (by omega)]

theorem hammingCount_length_le (s : Str) :
    ∀ t : Str, ((s.length : Int) - (t.length : Int)).natAbs ≤ hammingCount s t := by
  induction s with
  | nil =>
    intro t
    simp [hammingCount]
  | cons a as ih =>
    intro t
    cases t with
    | nil =>
      have := ih []
      simp only [hammingCount] at *
      simp at this ⊢
      omega
    | cons b bs =>
      have := ih bs
      simp only [hammingCount, List.length_cons]
      have hnn : (0 : Nat) ≤ if a = b then 0 else 1 := by positivity
      split_ifs at * <;> (push_cast at this ⊢; omega)

theorem calculateSimpleDistance_le_two_iff (s t : Str) :
    calculateSimpleDistance s t ≤ 2 ↔ hammingCount s t ≤ 2 := by
  unfold calculateSimpleDistance
  split_ifs with h
  · have := hammingCount_length_le s t
    constructor
    · intro hc; omega
    · intro hc; omega
  · rw [distanceLoop_eq (max s.length t.length) s t 0 rfl (by omega)]
    simp only [Nat.zero_add]
    split_ifs with hle
    · simp [hle]
    · constructor
      · intro hc; omega
      · intro hc; exact absurd hc hle

/-- Claim C3 (amended): the fuzzy tier applies exactly when none of tiers
1-4 apply, the bounded Hamming-style distance between the lower-cased stock
id and the query is at most 2, *and the query is longer than two
characters*; the bounded distance agrees with the plain positional mismatch
count on the threshold, and a record whose stock-id length differs from the
query's by more than 2 is rejected by the tier through the early exit,
without the mismatch count being computed. -/
theorem fuzzyTier_characterization (q : Str) (r : TOSRecord) :
    (recordPriority q r = 5 ↔
      ¬ toLowerCase r.STOCK_ID = q ∧
      ¬ startsWith (toLowerCase r.STOCK_ID) q = true ∧
      ¬ includes (toLowerCase r.STOCK_ID) q = true ∧
      ¬ includes (toLowerCase r.CONTRACTOR) q = true ∧
      (calculateSimpleDistance (toLowerCase r.STOCK_ID) q ≤ 2 ∧ q.length > 2)) ∧
    (calculateSimpleDistance (toLowerCase r.STOCK_ID) q ≤ 2 ↔
      hammingCount (toLowerCase r.STOCK_ID) q ≤ 2) ∧
    ((((toLowerCase r.STOCK_ID).length : Int) - (q.length : Int)).natAbs > 2 →
      calculateSimpleDistance (toLowerCase r.STOCK_ID) q = 99 ∧
        recordPriority q r ≠ 5) := by
  refine ⟨?_, calculateSimpleDistance_le_two_iff _ q, ?_⟩
  · unfold recordPriority
    dsimp only
    split_ifs with h1 h2 h3 h4 h5 <;> simp_all
  · intro hlen
    have h99 : calculateSimpleDistance (toLowerCase r.STOCK_ID) q = 99 := by
      unfold calculateSimpleDistance
      rw [if_pos hlen]
    refine ⟨h99, ?_⟩
    unfold recordPriority
    dsimp only
    split_ifs with h1 h2 h3 h4 h5 <;> simp_all

/-- Witness for C3: a record whose stock-id length differs from the query
length by more than 2 is rejected by the fuzzy tier via the early exit. -/
theorem fuzzyTier_characterization_witness :
    ((((toLowerCase recA.STOCK_ID).length : Int) - (("x".toList : Str).length : Int)).natAbs > 2) ∧
      (calculateSimpleDistance (toLowerCase recA.STOCK_ID) ("x".toList) = 99 ∧
        recordPriority ("x".toList) recA ≠ 5) :=
  ⟨by decide, (fuzzyTier_characterization ("x".toList) recA).2.2 (by decide)⟩

/-- Counterexample to claim C3 as frozen: for the two-character query `vw`
and a record with stock id `xy`, no tier among 1-4 applies and the bounded
distance is 2, yet the fuzzy tier does not apply, because the code also
requires the query to be longer than two characters. -/
theorem fuzzyTier_characterization_cex :
    ¬ (recordPriority ("vw".toList) shortQueryRecordB = 5 ↔
      ¬ toLowerCase shortQueryRecordB.STOCK_ID = "vw".toList ∧
      ¬ startsWith (toLowerCase shortQueryRecordB.STOCK_ID) ("vw".toList) = true ∧
      ¬ includes (toLowerCase shortQueryRecordB.STOCK_ID) ("vw".toList) = true ∧
      ¬ includes (toLowerCase shortQueryRecordB.CONTRACTOR) ("vw".toList) = true ∧
      calculateSimpleDistance (toLowerCase shortQueryRecordB.STOCK_ID) ("vw".toList) ≤ 2) := by
  decide

/-! ## Comparing the two search backends -/

theorem includes_refl (s : Str) : includes s s = true :=
  decide_eq_true ⟨[], [], by simp⟩

theorem startsWith_imp_includes (s q : Str) (h : startsWith s q = true) :
    includes s q = true := by
  obtain ⟨t, rfl⟩ : q <+: s := of_decide_eq_true h
  exact decide_eq_true ⟨[], t, by simp⟩

theorem recordPriority_le_four_iff (q : Str) (r : TOSRecord) :
    (0 < recordPriority q r ∧ recordPriority q r ≤ 4) ↔
      (includes (toLowerCase r.STOCK_ID) q = true ∨
        includes (toLowerCase r.CONTRACTOR) q = true) := by
  unfold recordPriority
  dsimp only
  split_ifs with h1 h2 h3 h4 h5
  · refine iff_of_true (by omega) (Or.inl ?_)
    rw [h1]
    exact includes_refl q
  · exact iff_of_true (by omega) (Or.inl (startsWith_imp_includes _ _ h2))
  · exact iff_of_true (by omega) (Or.inl h3)
  · exact iff_of_true (by omega) (Or.inr h4)
  · exact iff_of_false (by omega) (by simp [h3, h4])
  · exact iff_of_false (by omega) (by simp [h3, h4])

theorem mem_mockSearchRecords (data : List TOSRecord) (q : Str) (r : TOSRecord)
    (hq : q ≠ []) (hqt : trim q ≠ []) (hlen : data.length ≤ 50) :
    r ∈ (mockSearchRecords data q {}).1 ↔
      r ∈ data ∧ (includes (toLowerCase r.STOCK_ID) (toLowerCase q) = true ∨
        includes (toLowerCase r.CONTRACTOR) (toLowerCase q) = true) := by
  unfold mockSearchRecords
  dsimp only
  rw [if_pos ⟨hq, hqt⟩]
  rw [List.drop_zero, List.take_of_length_le
    (by rw [List.length_insertionSort]; exact (List.length_filter_le _ data).trans hlen)]
  rw [List.mem_insertionSort, List.mem_filter]
  simp [Bool.or_eq_true]

/-- Claim C4 (amended): the two search backends do not return the records
in the same order in general; what holds is membership agreement on the
non-fuzzy tiers: for an already-trimmed query and a collection of at most
50 records (the default page size) with no filters, the server-side
in-memory search returns exactly those records to which the local search
assigns a tier between 1 and 4. -/
theorem search_backends_agreement (records : List TOSRecord) (q : Str) (r : TOSRecord)
    (h1 : trim q ≠ []) (h2 : trim (toLowerCase q) = toLowerCase q)
    (h3 : records.length ≤ 50) :
    r ∈ (mockSearchRecords records q {}).1 ↔
      (r ∈ searchRecords records q ∧ 0 < recordPriority (toLowerCase q) r ∧
        recordPriority (toLowerCase q) r ≤ 4) := by
  have hq : q ≠ [] := fun e => h1 (by rw [e]; rfl)
  rw [mem_mockSearchRecords records q r hq h1 h3]
  rw [mem_searchRecords records q r h1, h2]
  rw [← recordPriority_le_four_iff (toLowerCase q) r]
  constructor
  · rintro ⟨hr, hp⟩
    exact ⟨⟨hr, hp.1⟩, hp⟩
  · rintro ⟨⟨hr, _⟩, hp⟩
    exact ⟨hr, hp⟩

/-- Witness for C4 at the query `5348` and the first sample record. -/
theorem search_backends_agreement_witness :
    (trim "5348".toList ≠ [] ∧
      trim (toLowerCase "5348".toList) = toLowerCase "5348".toList ∧
      demoRecords.length ≤ 50) ∧
    (recA ∈ (mockSearchRecords demoRecords ("5348".toList) {}).1 ↔
      (recA ∈ searchRecords demoRecords ("5348".toList) ∧
        0 < recordPriority (toLowerCase "5348".toList) recA ∧
        recordPriority (toLowerCase "5348".toList) recA ≤ 4)) :=
  ⟨⟨by decide, by decide, by decide⟩,
    search_backends_agreement demoRecords ("5348".toList) recA
      (by decide) (by decide) (by decide)⟩

/-- Counterexample to claim C4 as frozen: for the query `abcd` over a
single record with stock id `abce`, the local search returns the record
through the fuzzy tier while the server-side in-memory search returns the
empty list, so the two backends do not return the records in the same
order. -/
theorem search_backends_cex :
    (mockSearchRecords [fuzzyOnlyRecord] ("abcd".toList) {}).1 ≠
      searchRecords [fuzzyOnlyRecord] ("abcd".toList) := by
  decide

/-! ## The backend single-record update -/

/-- Claim C10: for every id not referencing an existing record, the server
update fails with the record-not-found error regardless of the field name
(in particular also for a field outside the mutable set), and no record is
modified. -/
theorem mockUpdateRecord_notFound (data : List TOSRecord) (id : Int) (field value : Str)
    (h : ∀ r ∈ data, r.ID ≠ id) :
    mockUpdateRecord data id field value = .error (.recordNotFound id) := by
  have hnone : data.findIdx? (fun r => r.ID == id) = none :=
    List.findIdx?_eq_none_iff.mpr fun r hr => by
      rw [beq_eq_false_iff_ne]
      exact h r hr
  unfold mockUpdateRecord
  rw [hnone]

/-- Witness for C10: an absent id together with a non-mutable field name
still produces the record-not-found error. -/
theorem mockUpdateRecord_notFound_witness :
    (∀ r ∈ demoRecords, r.ID ≠ 999) ∧
      mockUpdateRecord demoRecords 999 ("CONTRACTOR".toList) ("Evil Co".toList) =
        .error (.recordNotFound 999) :=
  ⟨by decide, mockUpdateRecord_notFound demoRecords 999 ("CONTRACTOR".toList)
    ("Evil Co".toList) (by decide)⟩

/-- Claim C5 (amended): for every id referencing an existing record, the
server update with a field name outside the mutable set fails with the
invalid-field error and modifies nothing; for an id with no existing record
the call fails with the record-not-found error instead.  (In the client the
field argument has the union type of the two mutable names, so an edit with
any other field is rejected at the type level before a pending entry can be
created.) -/
theorem mockUpdateRecord_invalidField (data : List TOSRecord) (id : Int) (field value : Str)
    (hex : ∃ r ∈ data, r.ID = id) (hf : field ∉ allowedFields) :
    mockUpdateRecord data id field value = .error (.invalidField field) := by
  unfold mockUpdateRecord
  cases hidx : data.findIdx? (fun r => r.ID == id) with
  | none =>
    rw [List.findIdx?_eq_none_iff] at hidx
    obtain ⟨r, hr, he⟩ := hex
    have := hidx r hr
    simp [he] at this
  | some i =>
    dsimp only
    rw [if_neg hf]

/-- Witness for C5: updating the non-mutable `CONTRACTOR` field of an
existing record fails with the invalid-field error. -/
theorem mockUpdateRecord_invalidField_witness :
    ((∃ r ∈ demoRecords, r.ID = 1) ∧ "CONTRACTOR".toList ∉ allowedFields) ∧
      mockUpdateRecord demoRecords 1 ("CONTRACTOR".toList) ("Evil Co".toList) =
        .error (.invalidField ("CONTRACTOR".toList)) :=
  ⟨⟨by decide, by decide⟩,
    mockUpdateRecord_invalidField demoRecords 1 ("CONTRACTOR".toList) ("Evil Co".toList)
      (by decide) (by decide)⟩

/-- Counterexample to claim C5 as frozen over every record id: with an id
that references no record, the update with a non-mutable field fails with
the record-not-found error, not the invalid-field error. -/
theorem mockUpdateRecord_invalidField_cex :
    mockUpdateRecord demoRecords 999 ("DATE".toList) ("x".toList) =
        .error (.recordNotFound 999) ∧
      UpdateError.recordNotFound 999 ≠ UpdateError.invalidField ("DATE".toList) := by
  constructor
  · rfl
  · decide

/-! ## The backend bulk update -/

theorem setMockField_ID (r : TOSRecord) (field value : Str) :
    (setMockField r field value).ID = r.ID := by
  unfold setMockField
  split_ifs <;> rfl

theorem setFieldAt_map_ID : ∀ (data : List TOSRecord) (i : Nat) (field value : Str),
    (setFieldAt data i field value).map TOSRecord.ID = data.map TOSRecord.ID := by
  intro data
  induction data with
  | nil => intro i f v; rfl
  | cons r rs ih =>
    intro i f v
    cases i with
    | zero => simp [setFieldAt, setMockField_ID]
    | succ i => simp [setFieldAt, ih i f v]

theorem mockUpdateRecord_ok_map_ID {data data1 : List TOSRecord} {id : Int}
    {field value : Str} (h : mockUpdateRecord data id field value = .ok data1) :
    data1.map TOSRecord.ID = data.map TOSRecord.ID := by
  unfold mockUpdateRecord at h
  cases hidx : data.findIdx? (fun r => r.ID == id) with
  | none => rw [hidx] at h; exact absurd h (by simp)
  | some i =>
    rw [hidx] at h
    split_ifs at h with hfield
    obtain rfl : setFieldAt data i field value = data1 := Except.ok.inj h
    exact setFieldAt_map_ID data i field value

theorem findIdx?_ID_congr (id : Int) : ∀ (data data2 : List TOSRecord) (i : Nat),
    data.map TOSRecord.ID = data2.map TOSRecord.ID →
    data.findIdx? (fun r => r.ID == id) i = data2.findIdx? (fun r => r.ID == id) i := by
  intro data
  induction data with
  | nil =>
    intro data2 i h
    cases data2 with
    | nil => rfl
    | cons b bs => simp at h
  | cons a as ih =>
    intro data2 i h
    cases data2 with
    | nil => simp at h
    | cons b bs =>
      simp only [List.map_cons, List.cons.injEq] at h
      rw [List.findIdx?_cons, List.findIdx?_cons, h.1, ih bs (i + 1) h.2]

theorem updateOutcome_congr {data data2 : List TOSRecord}
    (h : data.map TOSRecord.ID = data2.map TOSRecord.ID) (u : BulkItem) :
    updateOutcome data u = updateOutcome data2 u := by
  unfold updateOutcome mockUpdateRecord
  rw [findIdx?_ID_congr u.id data data2 0 h]
  cases data2.findIdx? (fun r => r.ID == u.id) with
  | none => rfl
  | some i => split_ifs <;> rfl

theorem bulkUpdate_cons_ok {data data1 : List TOSRecord} {u : BulkItem}
    {us : List BulkItem} (h : mockUpdateRecord data u.id u.field u.value = .ok data1) :
    bulkUpdate data (u :: us) =
      ((bulkUpdate data1 us).1,
        ⟨(bulkUpdate data1 us).2.successful + 1, (bulkUpdate data1 us).2.failed,
          (bulkUpdate data1 us).2.errors⟩) := by
  conv_lhs => rw [bulkUpdate, h]

theorem bulkUpdate_cons_error {data : List TOSRecord} {u : BulkItem}
    {us : List BulkItem} {e : UpdateError}
    (h : mockUpdateRecord data u.id u.field u.value = .error e) :
    bulkUpdate data (u :: us) =
      ((bulkUpdate data us).1,
        ⟨(bulkUpdate data us).2.successful, (bulkUpdate data us).2.failed + 1,
          (u.id, e) :: (bulkUpdate data us).2.errors⟩) := by
  conv_lhs => rw [bulkUpdate, h]

/-- Claim C9: for every input list of updates, the bulk update returns
`successful + failed` equal to the input length, its error list is exactly
the failing items in input order, each paired with its error (so every
failing item appears exactly once), and a failing item leaves the data
untouched, so the final data equals the one obtained from the succeeding
items alone. -/
theorem bulkUpdate_spec (data : List TOSRecord) (us : List BulkItem) :
    (bulkUpdate data us).2.successful + (bulkUpdate data us).2.failed = us.length ∧
    (bulkUpdate data us).2.errors =
      us.filterMap (fun u => (updateOutcome data u).map fun e => (u.id, e)) ∧
    (bulkUpdate data us).1 =
      (bulkUpdate data (us.filter fun u => (updateOutcome data u).isNone)).1 := by
  induction us generalizing data with
  | nil => exact ⟨rfl, rfl, rfl⟩
  | cons u us ih =>
    cases hu : mockUpdateRecord data u.id u.field u.value with
    | ok data1 =>
      have hout : updateOutcome data u = none := by
        unfold updateOutcome
        rw [hu]
      have hids : data1.map TOSRecord.ID = data.map TOSRecord.ID :=
        mockUpdateRecord_ok_map_ID hu
      obtain ⟨ihn, ihe, ihd⟩ := ih data1
      have hfilter : (u :: us).filter (fun w => (updateOutcome data w).isNone) =
          u :: us.filter fun w => (updateOutcome data w).isNone := by
        simp [List.filter_cons, hout]
      have hfcongr : us.filter (fun w => (updateOutcome data w).isNone) =
          us.filter fun w => (updateOutcome data1 w).isNone :=
        List.filter_congr fun w _ => by rw [updateOutcome_congr hids w]
      rw [bulkUpdate_cons_ok hu]
      dsimp only
      refine ⟨?_, ?_, ?_⟩
      · simp only [List.length_cons]
        omega
      · rw [List.filterMap_cons, hout, ihe]
        exact List.filterMap_congr fun w _ => by rw [updateOutcome_congr hids w]
      · rw [hfilter, bulkUpdate_cons_ok hu]
        dsimp only
        rw [hfcongr]
        exact ihd
    | error e =>
      have hout : updateOutcome data u = some e := by
        unfold updateOutcome
        rw [hu]
      obtain ⟨ihn, ihe, ihd⟩ := ih data
      have hfilter : (u :: us).filter (fun w => (updateOutcome data w).isNone) =
          us.filter fun w => (updateOutcome data w).isNone := by
        simp [List.filter_cons, hout]
      rw [bulkUpdate_cons_error hu]
      dsimp only
      refine ⟨?_, ?_, ?_⟩
      · simp only [List.length_cons]
        omega
      · rw [List.filterMap_cons, hout, ihe]
        rfl
      · rw [hfilter]
        exact ihd

/-! ## The client pending queue -/

theorem updateRecord_ok_ids {s s1 : ClientState} {id : Int} {field : MutableField}
    {newValue : Str} {now : Nat}
    (h : updateRecord s id field newValue now = .ok s1) :
    s1.pending.map PendingUpdate.id =
      s.pending.map PendingUpdate.id ++ [pendingId id field now] ∧
    pendingId id field now ∉ s.pending.map PendingUpdate.id := by
  unfold updateRecord at h
  cases hf : findRecord s.records id with
  | none =>
    rw [hf] at h
    exact absurd h (by simp)
  | some record =>
    rw [hf] at h
    dsimp only at h
    split_ifs at h with hdup
    obtain rfl := Except.ok.inj h
    refine ⟨by simp, ?_⟩
    intro hmem
    rw [List.mem_map] at hmem
    obtain ⟨e, he, heid⟩ := hmem
    exact hdup (List.any_eq_true.mpr ⟨e, he, by simp [heid]⟩)

theorem processAllEdits_ok_ids {cmds : List EditCmd} : ∀ {s s1 : ClientState},
    processAllEdits s cmds = .ok s1 →
    s1.pending.map PendingUpdate.id =
      s.pending.map PendingUpdate.id ++
        cmds.map (fun c => pendingId c.id c.field c.now) ∧
    (cmds.map fun c => pendingId c.id c.field c.now).Nodup ∧
    ∀ g ∈ cmds.map (fun c => pendingId c.id c.field c.now),
      g ∉ s.pending.map PendingUpdate.id := by
  induction cmds with
  | nil =>
    intro s s1 h
    obtain rfl := Except.ok.inj h
    simp
  | cons c cs ih =>
    intro s s1 h
    unfold processAllEdits at h
    cases hu : updateRecord s c.id c.field c.value c.now with
    | error e =>
      rw [hu] at h
      exact absurd h (by simp)
    | ok s2 =>
      rw [hu] at h
      dsimp only at h
      obtain ⟨e1, e2⟩ := updateRecord_ok_ids hu
      obtain ⟨i1, i2, i3⟩ := ih h
      refine ⟨?_, ?_, ?_⟩
      · rw [i1, e1]
        simp [List.append_assoc]
      · rw [List.map_cons, List.nodup_cons]
        refine ⟨?_, i2⟩
        intro hmem
        have hnotin := i3 _ hmem
        rw [e1] at hnotin
        exact hnotin (by simp)
      · intro g hg
        rw [List.map_cons, List.mem_cons] at hg
        rcases hg with rfl | hg
        · exact e2
        · intro hin
          have hnotin := i3 g hg
          rw [e1] at hnotin
          exact hnotin (by simp [hin])

/-- Claim C6: over any sequence of client edits in which every call
succeeds, the generated pending-update identifiers (built from record id,
field name and timestamp) are pairwise distinct; a call whose generated id
collides with an entry still in the queue is rejected by the key constraint
of the pending store, so even rapid repeated edits to the same field of the
same record cannot produce two successful calls sharing an identifier. -/
theorem generatedIds_distinct (s : ClientState) (cmds : List EditCmd) (s1 : ClientState)
    (hok : processAllEdits s cmds = .ok s1) :
    (cmds.map fun c => pendingId c.id c.field c.now).Nodup :=
  (processAllEdits_ok_ids hok).2.1

/-- Witness for C6: three successful edits, two of them sharing a
timestamp, generate distinct identifiers. -/
theorem generatedIds_distinct_witness :
    processAllEdits demoState demoEdits =
        .ok (okOrElse demoState (processAllEdits demoState demoEdits)) ∧
      (demoEdits.map fun c => pendingId c.id c.field c.now).Nodup :=
  ⟨by rfl, generatedIds_distinct demoState demoEdits
    (okOrElse demoState (processAllEdits demoState demoEdits)) (by rfl)⟩

theorem pendingKeyLe_total (e1 e2 : PendingUpdate) :
    pendingKeyLe e1 e2 ∨ pendingKeyLe e2 e1 := by
  unfold pendingKeyLe
  rw [lexOrd_swap e1.id e2.id]
  rcases e : lexOrd e1.id e2.id with _ | _ | _ <;> simp [Ordering.swap]

theorem pendingKeyLe_trans (e1 e2 e3 : PendingUpdate) (h1 : pendingKeyLe e1 e2)
    (h2 : pendingKeyLe e2 e3) : pendingKeyLe e1 e3 :=
  lexOrd_ne_gt_trans h1 h2

/-- Claim C7 (amended): starting from an empty pending queue, after a
sequence of successful applyEdit calls with no intervening clear or sync,
getPendingUpdates returns exactly one entry per call, each bearing its
call's generated id (the returned ids are a permutation of the generated
ids), but in ascending key order of the id strings — not in insertion
order; the distinctness assumption on the generated ids is automatic,
because a colliding call would have failed. -/
theorem getPendingUpdates_after_edits (s : ClientState) (cmds : List EditCmd)
    (s1 : ClientState) (hok : processAllEdits s cmds = .ok s1)
    (hempty : s.pending = []) :
    (getPendingUpdates s1).length = cmds.length ∧
    ((getPendingUpdates s1).map PendingUpdate.id).Perm
      (cmds.map fun c => pendingId c.id c.field c.now) ∧
    (getPendingUpdates s1).Pairwise pendingKeyLe := by
  obtain ⟨e1, -, -⟩ := processAllEdits_ok_ids hok
  rw [hempty] at e1
  simp only [List.map_nil, List.nil_append] at e1
  unfold getPendingUpdates
  refine ⟨?_, ?_, ?_⟩
  · rw [List.length_insertionSort]
    have hlen := congrArg List.length e1
    simpa using hlen
  · rw [← e1]
    exact (List.perm_insertionSort pendingKeyLe s1.pending).map PendingUpdate.id
  · exact @List.sorted_insertionSort _ pendingKeyLe _ ⟨pendingKeyLe_total⟩
      ⟨pendingKeyLe_trans⟩ s1.pending

/-- Witness for C7: three successful edits from the empty queue leave
exactly three entries carrying the three generated ids, returned in
ascending key order. -/
theorem getPendingUpdates_after_edits_witness :
    (processAllEdits demoState demoEdits =
        .ok (okOrElse demoState (processAllEdits demoState demoEdits)) ∧
      demoState.pending = []) ∧
    ((getPendingUpdates (okOrElse demoState (processAllEdits demoState demoEdits))).length =
        demoEdits.length ∧
      ((getPendingUpdates (okOrElse demoState
          (processAllEdits demoState demoEdits))).map PendingUpdate.id).Perm
        (demoEdits.map fun c => pendingId c.id c.field c.now) ∧
      (getPendingUpdates (okOrElse demoState
          (processAllEdits demoState demoEdits))).Pairwise pendingKeyLe) :=
  ⟨⟨by rfl, by rfl⟩,
    getPendingUpdates_after_edits demoState demoEdits
      (okOrElse demoState (processAllEdits demoState demoEdits)) (by rfl) (by rfl)⟩

/-- Counterexample to claim C7 as frozen: two successful edits to the same
field of the same record at timestamps 99 and 100 insert the ids
`1-SHIFT-99` then `1-SHIFT-100`, but getPendingUpdates returns them in
ascending key order of the id strings (`1-SHIFT-100` first, since the
character `1` precedes `9`), which is not the insertion order of the
calls. -/
theorem getPendingUpdates_after_edits_cex :
    processAllEdits demoState cexEdits =
        .ok (okOrElse demoState (processAllEdits demoState cexEdits)) ∧
    demoState.pending = [] ∧
    (getPendingUpdates (okOrElse demoState
        (processAllEdits demoState cexEdits))).map PendingUpdate.id ≠
      cexEdits.map fun c => pendingId c.id c.field c.now := by
  refine ⟨by rfl, rfl, ?_⟩
  decide

/-- Claim C8: clearing a pending id removes exactly the entry with that id
and no other; an id not present in the queue leaves the state unchanged (no
error, no mutation), and clearing the same id twice has the same effect as
clearing it once. -/
theorem clearPendingUpdate_spec (s : ClientState) (pid : Str) :
    (∀ e ∈ s.pending, e.id ≠ pid → e ∈ (clearPendingUpdate s pid).pending) ∧
    (∀ e ∈ (clearPendingUpdate s pid).pending, e ∈ s.pending ∧ e.id ≠ pid) ∧
    (pid ∉ s.pending.map PendingUpdate.id → clearPendingUpdate s pid = s) ∧
    clearPendingUpdate (clearPendingUpdate s pid) pid = clearPendingUpdate s pid := by
  refine ⟨?_, ?_, ?_, ?_⟩
  · intro e he hne
    exact List.mem_filter.mpr ⟨he, by simp [hne]⟩
  · intro e he
    have hm := List.mem_filter.mp he
    refine ⟨hm.1, ?_⟩
    have := hm.2
    simpa using this
  · intro hnot
    have hsame : s.pending.filter (fun e => e.id != pid) = s.pending :=
      List.filter_eq_self.mpr fun e he => by
        simp only [bne_iff_ne, ne_eq, decide_eq_true_eq]
        intro heq
        exact hnot (List.mem_map.mpr ⟨e, he, heq⟩)
    unfold clearPendingUpdate
    rw [hsame]
  · have hidem : (s.pending.filter fun e => e.id != pid).filter (fun e => e.id != pid) =
        s.pending.filter fun e => e.id != pid :=
      List.filter_eq_self.mpr fun e he => (List.mem_filter.mp he).2
    unfold clearPendingUpdate
    dsimp only
    rw [hidem]

/-- Witness for C8: clearing an id that is not in the queue leaves the
state unchanged. -/
theorem clearPendingUpdate_spec_witness :
    ("9-SHIFT-1".toList ∉ pendingDemoState.pending.map PendingUpdate.id) ∧
      clearPendingUpdate pendingDemoState ("9-SHIFT-1".toList) = pendingDemoState :=
  ⟨by decide,
    (clearPendingUpdate_spec pendingDemoState ("9-SHIFT-1".toList)).2.2.1 (by decide)⟩

end TOS
